import Mathlib

/-!
Verification of the `criterion-cycles-per-byte` measurement adapter.

The source (src/lib.rs) has two parts:
* the `Measurement` implementation for `CyclesPerByte`
  (`start`/`end`/`add`/`zero`/`to_f64`), operating on `u64` cycle counts;
* the `ValueFormatter` implementation `CyclesPerByteFormatter`
  (`format_value`/`format_throughput`/`scale_values`/`scale_throughputs`/
  `scale_for_machines`), operating on `f64` values and `criterion::Throughput`.

Modelling choices:
* `u64` is embedded as `Nat`, with wrap-around written explicitly as
  `% 2 ^ 64` where the source operation can overflow, and Rust
  `saturating_sub` as truncated `Nat` subtraction (identical on
  arguments below `2 ^ 64`).
* `f64` is embedded as the type `F64`: a finite rational value or one of
  the IEEE special values `inf`, `-inf`, `NaN`.  Finite arithmetic is
  modelled at rational precision (correct rounding of representable
  results is not modelled; every concrete instance appearing in the
  claims is exact in binary64, so nothing is lost there), while
  the IEEE behaviour of division by zero is modelled faithfully since a
  claim is about it.  The one place where binary64 rounding itself is
  the subject of a claim — the `u64 as f64` conversion in `to_f64` — is
  modelled bit-faithfully by `u64ToF64q` (round to nearest, ties to
  even, on a 53-bit significand).
* Rust `format!("{:.4} ...", v)` is embedded by `fmt4q` / `fmtF64`:
  fixed-point rendering with exactly four decimal places, rounding the
  value at the fourth decimal (ties to even, as Rust does on the exact
  value), with `inf` / `-inf` / `NaN` rendered the way Rust displays
  non-finite doubles.
* In-place mutation of a `&mut [f64]` slice is embedded by returning the
  final contents of the slice next to the returned label.
-/

namespace CyclesPerByte

/-- Rust `u64::saturating_sub` for operands below `2 ^ 64`: truncated
natural subtraction (`a - b` clamps to `0` when `b > a`). -/
def u64SatSub (a b : Nat) : Nat := a - b

/-- `fn end(&self, i: Self::Intermediate) -> Self::Value { now().saturating_sub(i) }`
with the hardware reading `now()` made an explicit argument `t`
(the claims quantify over the readings, so nothing of the hardware
counter itself needs to be modelled beyond its `u64` value). -/
def endMeasurement (t i : Nat) : Nat := u64SatSub t i

/-- `fn add(&self, v1: &Self::Value, v2: &Self::Value) -> Self::Value { v1 + v2 }`:
`u64` addition, which wraps modulo `2 ^ 64` (release-profile semantics of
Rust integer `+`). -/
def add (v1 v2 : Nat) : Nat := (v1 + v2) % 2 ^ 64

/-- `fn zero(&self) -> Self::Value { 0 }` -/
def zero : Nat := 0

/-- Round the fraction `a / d` (with `d ≠ 0`) to the nearest natural
number, ties to even. -/
def rneFrac (a d : Nat) : Nat :=
  if d < 2 * (a % d) ∨ (2 * (a % d) = d ∧ (a / d) % 2 = 1)
  then a / d + 1 else a / d

/-- The value of `n as f64` for a `u64` value `n`: round to nearest with a
53-bit significand, ties to even.  `Nat.log2 n` is the index of the most
significant bit, so `Nat.log2 n - 52` is how far the significand must be
shifted to fit in 53 bits (zero when `n < 2 ^ 53`). -/
def u64ToF64q (n : Nat) : ℚ :=
  if n = 0 then 0
  else (rneFrac n (2 ^ (Nat.log2 n - 52)) : ℚ) * 2 ^ (Nat.log2 n - 52)

/-- `fn to_f64(&self, value: &Self::Value) -> f64 { *value as f64 }`
(the result of the conversion is always finite for `u64` inputs, so the
rational value suffices). -/
def to_f64 (value : Nat) : ℚ := u64ToF64q value

/-- An `f64` value: finite (its exact rational value), one of the two
infinities, or `NaN`.  IEEE signed zero is not distinguished (no claim
touches it). -/
inductive F64 where
  | fin : ℚ → F64
  | inf : F64
  | neginf : F64
  | nan : F64
deriving DecidableEq

/-- IEEE binary64 division on the model: finite quotients are exact
rationals; division of a nonzero finite value by zero yields a signed
infinity and `0 / 0` yields `NaN`, per IEEE 754 (the behaviour Rust
inherits, with no panic and no special branch). -/
def F64.div : F64 → F64 → F64
  | .fin a, .fin b =>
      if b = 0 then (if 0 < a then .inf else if a < 0 then .neginf else .nan)
      else .fin (a / b)
  | .inf, .fin b => if 0 ≤ b then .inf else .neginf
  | .neginf, .fin b => if 0 ≤ b then .neginf else .inf
  | .fin _, .inf => .fin 0
  | .fin _, .neginf => .fin 0
  | _, _ => .nan

/-- `criterion::Throughput`: per-iteration workload declared by the
benchmark (byte count with binary or decimal scaling, or an element
count), each carrying a `u64`. -/
inductive Throughput where
  | Bytes : Nat → Throughput
  | Elements : Nat → Throughput
  | BytesDecimal : Nat → Throughput
deriving DecidableEq

/-- Left-pad the decimal digits of `n` with zeros to width 4 (the
fractional part of a `{:.4}` rendering). -/
def pad4 (n : Nat) : String :=
  String.mk (List.replicate (4 - (toString n).length) '0') ++ toString n

/-- Rust `format!("{:.4}", q)` for a nonnegative finite value: round
`q` at the fourth decimal place (ties to even) and print with exactly
four digits after the point.  `q * 10000` is formed on the unreduced
fraction `(q.num * 10000) / q.den`, which rounds identically. -/
def fmt4nn (q : ℚ) : String :=
  toString (rneFrac (q.num.toNat * 10000) q.den / 10000) ++ "." ++
    pad4 (rneFrac (q.num.toNat * 10000) q.den % 10000)

/-- Rust `format!("{:.4}", q)` for a finite value of either sign. -/
def fmt4q (q : ℚ) : String :=
  if q < 0 then "-" ++ fmt4nn (-q) else fmt4nn q

/-- Rust `format!("{:.4}", v)` on a double: fixed-point with four
decimals when finite; Rust displays non-finite doubles as `inf`,
`-inf`, `NaN` (the precision specifier is ignored for them). -/
def fmtF64 : F64 → String
  | .fin q => fmt4q q
  | .inf => "inf"
  | .neginf => "-inf"
  | .nan => "NaN"

/-- `fn format_value(&self, value: f64) -> String { format!("{:.4} cycles", value) }` -/
def format_value (value : F64) : String :=
  fmtF64 value ++ " cycles"

/-- `fn format_throughput(&self, throughput: &Throughput, value: f64) -> String`:
matches on the variant; `Bytes`/`BytesDecimal` divide the value by the
byte count converted to `f64`, `Elements` prints the value undivided with
the element count appended after a slash. -/
def format_throughput : Throughput → F64 → String
  | .Bytes b, value => fmtF64 (F64.div value (.fin b)) ++ " cpb"
  | .Elements b, value => fmtF64 value ++ " cycles/" ++ toString b
  | .BytesDecimal b, value => fmtF64 (F64.div value (.fin b)) ++ " cpb (decimal)"

/-- `fn scale_values(&self, _typical_value: f64, _values: &mut [f64]) -> &'static str`:
returns `"cycles"` and touches nothing; the final slice contents are
returned unchanged next to the label. -/
def scale_values (_typical_value : F64) (values : List F64) : String × List F64 :=
  ("cycles", values)

/-- `fn scale_throughputs(&self, _typical_value: f64, throughput: &Throughput, values: &mut [f64]) -> &'static str`:
divides every slice element in place by the denominator of the variant
and returns the variant label.  The returned list is the final slice
contents. -/
def scale_throughputs (_typical_value : F64) (throughput : Throughput)
    (values : List F64) : String × List F64 :=
  match throughput with
  | .Bytes n => ("cpb", values.map (fun val => F64.div val (.fin n)))
  | .Elements n => ("c/e", values.map (fun val => F64.div val (.fin n)))
  | .BytesDecimal n =>
      ("cpb (decimal)", values.map (fun val => F64.div val (.fin n)))

/-- `fn scale_for_machines(&self, _values: &mut [f64]) -> &'static str`:
returns `"cycles"` and touches nothing. -/
def scale_for_machines (values : List F64) : String × List F64 :=
  ("cycles", values)

/-- Claim C1: for every intermediate timestamp `i` returned by `start` and
every subsequent counter reading `t` taken inside `end`, `end` returns
`t - i` when `t ≥ i` and `0` when `t < i`: the delta is a saturating
subtraction, never negative (the integer-valued equation in the first
conjunct), never wrapping (the result never exceeds `t`), and signalling
no error. -/
theorem end_is_saturating_delta (t i : Nat) :
    (i ≤ t → (endMeasurement t i : ℤ) = (t : ℤ) - (i : ℤ)) ∧
    (t < i → endMeasurement t i = 0) ∧
    endMeasurement t i ≤ t := by
  unfold endMeasurement u64SatSub
  refine ⟨fun h => ?_, fun h => ?_, ?_⟩ <;> omega

/-- Witness for C1: the theorem applied at the readings `t = 10, i = 3`
(counter moved forward) and `t = 3, i = 10` (counter moved backward). -/
theorem end_is_saturating_delta_witness :
    (endMeasurement 10 3 : ℤ) = (10 : ℤ) - (3 : ℤ) ∧ endMeasurement 3 10 = 0 :=
  ⟨(end_is_saturating_delta 10 3).1 (by decide),
   (end_is_saturating_delta 3 10).2.1 (by decide)⟩

/-- Claim C2: for every throughput variant with denominator `n` and every
slice of values, `scale_throughputs` replaces each element `v` by `v / n`
(for `Bytes`, `Elements` and `BytesDecimal` alike), ignores
`typical_value` (it is universally quantified on the left and absent on
the right), and returns the labels `"cpb"`, `"c/e"`, `"cpb (decimal)"`
respectively; in particular `scale_throughputs(anything, Bytes(4),
[8.0, 16.0])` mutates the values to `[2.0, 4.0]` and returns `"cpb"`. -/
theorem scale_throughputs_divides_in_place (tv : F64) (n : Nat) (vs : List F64) :
    scale_throughputs tv (.Bytes n) vs
      = ("cpb", vs.map (fun v => F64.div v (.fin n))) ∧
    scale_throughputs tv (.Elements n) vs
      = ("c/e", vs.map (fun v => F64.div v (.fin n))) ∧
    scale_throughputs tv (.BytesDecimal n) vs
      = ("cpb (decimal)", vs.map (fun v => F64.div v (.fin n))) ∧
    scale_throughputs tv (.Bytes 4) [.fin 8, .fin 16] = ("cpb", [.fin 2, .fin 4]) := by
  refine ⟨rfl, rfl, rfl, ?_⟩
  have h4 : ¬ ((4 : Nat) : ℚ) = 0 := by norm_num
  simp [scale_throughputs, F64.div, if_neg h4]
  norm_num

/-- Claim C3: `format_throughput` renders, for `Bytes b`, the value
divided by `b` to four decimal places followed by `" cpb"`; for
`Elements N`, the value itself (not divided by `N`) to four decimal
places followed by `" cycles/N"`; for `BytesDecimal b`, the value
divided by `b` to four decimal places followed by `" cpb (decimal)"`;
in particular `format_throughput(Bytes(2), 1000.0) = "500.0000 cpb"`
and `format_throughput(Elements(5), 1000.0) = "1000.0000 cycles/5"`. -/
theorem format_throughput_renders (v : ℚ) (b : Nat) (hb : b ≠ 0) :
    format_throughput (.Bytes b) (.fin v) = fmt4q (v / (b : ℚ)) ++ " cpb" ∧
    format_throughput (.Elements b) (.fin v) = fmt4q v ++ " cycles/" ++ toString b ∧
    format_throughput (.BytesDecimal b) (.fin v)
      = fmt4q (v / (b : ℚ)) ++ " cpb (decimal)" ∧
    format_throughput (.Bytes 2) (.fin 1000) = "500.0000 cpb" ∧
    format_throughput (.Elements 5) (.fin 1000) = "1000.0000 cycles/5" := by
  have hbq : ¬ ((b : Nat) : ℚ) = 0 := by exact_mod_cast hb
  have h1 : ((1000 : ℚ) / ((2 : Nat) : ℚ)) = 500 := by norm_num
  have h2 : ¬ ((2 : Nat) : ℚ) = 0 := by norm_num
  refine ⟨?_, rfl, ?_, ?_, by decide⟩
  · simp [format_throughput, F64.div, hb, fmtF64]
  · simp [format_throughput, F64.div, hb, fmtF64]
  · simp only [format_throughput, F64.div, if_neg h2, h1]
    decide

/-- Witness for C3: the theorem applied at `v = 1000`, `b = 2`. -/
theorem format_throughput_renders_witness :
    format_throughput (.Bytes 2) (.fin 1000)
      = fmt4q ((1000 : ℚ) / ((2 : Nat) : ℚ)) ++ " cpb" :=
  (format_throughput_renders 1000 2 (by decide)).1

/-- Claim C4: accumulation is a commutative monoid on cycle counts:
`add` is commutative and associative and `zero` is a right identity on
every `u64` value. -/
theorem add_comm_monoid_laws (a b c v : Nat) (hv : v < 2 ^ 64) :
    add a b = add b a ∧
    add (add a b) c = add a (add b c) ∧
    add v zero = v := by
  unfold add zero
  refine ⟨by rw [Nat.add_comm], ?_, ?_⟩ <;> omega

/-- Witness for C4: the theorem applied at `a = 1, b = 2, c = 3, v = 4`. -/
theorem add_comm_monoid_laws_witness :
    add 1 2 = add 2 1 ∧ add (add 1 2) 3 = add 1 (add 2 3) ∧ add 4 zero = 4 :=
  add_comm_monoid_laws 1 2 3 4 (by norm_num)

/-- Claim C5: a zero byte or element count is not specially guarded:
division by zero follows IEEE semantics (a signed infinity for a nonzero
numerator, `NaN` for a zero numerator), the result is stored in the
slice or formatted like any other value, and no error is signalled
(every operation involved is total). -/
theorem division_by_zero_unguarded (v : ℚ) (tv : F64) :
    F64.div (.fin v) (.fin ((0 : Nat) : ℚ))
      = (if 0 < v then F64.inf else if v < 0 then F64.neginf else F64.nan) ∧
    scale_throughputs tv (.Bytes 0) [.fin v]
      = ("cpb", [if 0 < v then F64.inf else if v < 0 then F64.neginf else F64.nan]) ∧
    format_throughput (.Bytes 0) (.fin 1000) = "inf cpb" ∧
    format_throughput (.BytesDecimal 0) (.fin 0) = "NaN cpb (decimal)" ∧
    format_value F64.inf = "inf cycles" ∧
    format_value F64.nan = "NaN cycles" := by
  have h0 : ((0 : Nat) : ℚ) = 0 := by norm_num
  have hp : (0 : ℚ) < 1000 := by norm_num
  have hz : ¬ (0 : ℚ) < 0 := by norm_num
  refine ⟨?_, ?_, ?_, ?_, rfl, rfl⟩
  · simp [F64.div, h0]
  · simp [scale_throughputs, F64.div, h0]
  · simp only [format_throughput, F64.div, h0, if_pos rfl, if_pos hp]
    decide
  · simp only [format_throughput, F64.div, h0, if_pos rfl, if_neg hz]
    decide

/-- Claim C6: the conversion of a cycle count to a 64-bit float is exact
for every `v ≤ 2 ^ 53`: round-to-nearest on a 53-bit significand loses
nothing there. -/
theorem to_f64_exact_below_2_53 (v : Nat) (h : v ≤ 2 ^ 53) :
    to_f64 v = (v : ℚ) := by
  unfold to_f64 u64ToF64q
  by_cases hv : v = 0
  · simp [hv]
  · rw [if_neg hv]
    rcases lt_or_eq_of_le h with hlt | rfl
    · have hlog : Nat.log2 v < 53 := (Nat.log2_lt hv).mpr hlt
      have hk : Nat.log2 v - 52 = 0 := by omega
      rw [hk]
      have hr : rneFrac v (2 ^ 0) = v := by
        unfold rneFrac
        rw [pow_zero, Nat.mod_one v, Nat.div_one v]
        norm_num
      rw [hr]
      norm_num
    · have hlog : Nat.log2 (2 ^ 53) = 53 := by
        rw [Nat.log2_eq_log_two, Nat.log_pow (by norm_num : (1 : ℕ) < 2)]
      rw [hlog]
      have hr : rneFrac (2 ^ 53) (2 ^ (53 - 52)) = 2 ^ 52 := by
        norm_num [rneFrac]
      rw [hr]
      push_cast
      ring

/-- Witness for C6: the theorem applied at the boundary value `2 ^ 53`. -/
theorem to_f64_exact_below_2_53_witness :
    to_f64 (2 ^ 53) = ((2 ^ 53 : Nat) : ℚ) :=
  to_f64_exact_below_2_53 (2 ^ 53) (by norm_num)

/-- Claim C7: `format_value` renders the value to exactly four decimal
places followed by `" cycles"`; in particular
`format_value(1234.5) = "1234.5000 cycles"`. -/
theorem format_value_renders (v : F64) :
    format_value v = fmtF64 v ++ " cycles" ∧
    format_value (.fin (1234.5 : ℚ)) = "1234.5000 cycles" := by
  refine ⟨rfl, ?_⟩
  have hn : (1234.5 : ℚ).num = 2469 := by norm_num
  have hd : (1234.5 : ℚ).den = 2 := by norm_num
  have hneg : ¬ (1234.5 : ℚ) < 0 := by norm_num
  simp only [format_value, fmtF64, fmt4q, if_neg hneg, fmt4nn, hn, hd]
  decide

/-- Claim C8: `scale_values` and `scale_for_machines` leave every element
of the slice unchanged and always return the label `"cycles"`. -/
theorem scale_values_and_machines_noop (tv : F64) (vs ws : List F64) :
    scale_values tv vs = ("cycles", vs) ∧
    scale_for_machines ws = ("cycles", ws) ∧
    scale_values tv [.fin 1, .fin 2] = ("cycles", [.fin 1, .fin 2]) :=
  ⟨rfl, rfl, rfl⟩

/-- Claim C9: `add` is plain wrapping 64-bit addition, `(v1 + v2) mod
2 ^ 64`; at `v1 = v2 = 2 ^ 63` the mathematical sum is `2 ^ 64`, and
`add` returns `0`, strictly smaller than the sum, rather than saturating
or signalling an error. -/
theorem add_wraps_mod_2_64 (v1 v2 : Nat) :
    add v1 v2 = (v1 + v2) % 2 ^ 64 ∧
    add (2 ^ 63) (2 ^ 63) = 0 ∧
    add (2 ^ 63) (2 ^ 63) < 2 ^ 63 + 2 ^ 63 := by
  refine ⟨rfl, ?_, ?_⟩ <;> · unfold add; norm_num

/-- Claim C10: every operation other than `start` and `end` is
deterministic and stateless: equal arguments (including equal initial
slice contents) yield equal results and equal final slice contents.  In
the embedding each operation is a pure function of its arguments — the
source bodies read nothing but their parameters — so equal inputs give
equal outputs. -/
theorem operations_deterministic (a a2 b b2 : Nat) (x x2 tv tv2 : F64)
    (t t2 : Throughput) (vs vs2 : List F64)
    (ha : a = a2) (hb : b = b2) (hx : x = x2) (htv : tv = tv2)
    (ht : t = t2) (hvs : vs = vs2) :
    add a b = add a2 b2 ∧ zero = zero ∧ to_f64 a = to_f64 a2 ∧
    format_value x = format_value x2 ∧
    format_throughput t x = format_throughput t2 x2 ∧
    scale_values tv vs = scale_values tv2 vs2 ∧
    scale_throughputs tv t vs = scale_throughputs tv2 t2 vs2 ∧
    scale_for_machines vs = scale_for_machines vs2 := by
  subst ha; subst hb; subst hx; subst htv; subst ht; subst hvs
  exact ⟨rfl, rfl, rfl, rfl, rfl, rfl, rfl, rfl⟩

/-- Witness for C10: the theorem applied at concrete equal arguments. -/
theorem operations_deterministic_witness :
    add 1 2 = add 1 2 ∧ zero = zero ∧ to_f64 1 = to_f64 1 ∧
    format_value (.fin 3) = format_value (.fin 3) ∧
    format_throughput (.Bytes 2) (.fin 3) = format_throughput (.Bytes 2) (.fin 3) ∧
    scale_values (.fin 0) [.fin 1] = scale_values (.fin 0) [.fin 1] ∧
    scale_throughputs (.fin 0) (.Bytes 2) [.fin 1]
      = scale_throughputs (.fin 0) (.Bytes 2) [.fin 1] ∧
    scale_for_machines [.fin 1] = scale_for_machines [.fin 1] :=
  operations_deterministic 1 1 2 2 (.fin 3) (.fin 3) (.fin 0) (.fin 0)
    (.Bytes 2) (.Bytes 2) [.fin 1] [.fin 1] rfl rfl rfl rfl rfl rfl

end CyclesPerByte
